import Mathlib

/- Verification development for the Workout-Tracker analysis script (graph.py).

   The script is embedded shallowly:
   - a pandas row becomes a `Record` (numeric cells are `Option ℚ`, a missing
     cell / NaN being `none`); the Date column is modelled as `ℤ` (days since
     epoch, with epoch day 0 a Thursday, so a day `d` is a Sunday exactly when
     `d % 7 = 3`).  Date parsing (`pd.to_datetime`) is abstracted: dates arrive
     already parsed, since no claim under scrutiny concerns `ParseError`.
   - column-wise pandas operations become list functions that mirror the
     source line by line (fillna-with-median, drop_duplicates keeping the
     first occurrence, sort_values, groupby/size/max, diff/cumsum masking,
     Grouper weekly bucketing, nunique).
   - pandas `groupby` sorts its keys alphabetically; the claims settled here
     are independent of the order of the exercise keys, which is modelled as
     first-occurrence order. -/

namespace WorkoutTracker

/- One logged row of the workout CSV, after projection to the seven columns
   of graph.py line 11.  `weight`, `reps`, `sets` are `none` when the cell is
   missing (NaN); `notes` is free text, possibly missing. -/
structure Record where
  date : ℤ
  workout_name : String
  exercise_name : String
  weight : Option ℚ
  reps : Option ℚ
  sets : Option ℚ
  notes : Option String
deriving DecidableEq, Repr

/- Middle element (odd length) or mean of the two middle elements (even
   length) of an already sorted list; this is how pandas defines the median
   of the present values of a column. -/
def medianOfSorted (s : List ℚ) : ℚ :=
  if s.length % 2 = 1 then s.getD (s.length / 2) 0
  else (s.getD (s.length / 2 - 1) 0 + s.getD (s.length / 2) 0) / 2

/- `Series.median()`: the median of the non-missing values.  On an all-NaN
   column pandas returns NaN, modelled as `none`. -/
def medianOpt (l : List ℚ) : Option ℚ :=
  if l = [] then none
  else some (medianOfSorted (List.insertionSort (fun a b => a ≤ b) l))

/- `fillna`: a present value is kept; a missing one is replaced by the fill
   value.  When the fill value is itself missing (`fillna(NaN)`, which is what
   `fillna(median)` amounts to on an all-missing column) nothing changes. -/
def fillOpt (v m : Option ℚ) : Option ℚ :=
  match v with
  | some x => some x
  | none => m

/- Per-row cell replacements for the three numeric columns. -/
def fillW (m : Option ℚ) (r : Record) : Record :=
  { r with weight := fillOpt r.weight m }

def fillR (m : Option ℚ) (r : Record) : Record :=
  { r with reps := fillOpt r.reps m }

def fillS (m : Option ℚ) (r : Record) : Record :=
  { r with sets := fillOpt r.sets m }

/- graph.py line 14: `df['Weight'].fillna(df['Weight'].median(), inplace=True)` -/
def fillWeightCol (rows : List Record) : List Record :=
  rows.map (fillW (medianOpt (rows.filterMap (·.weight))))

/- graph.py line 15: `df['Reps'].fillna(df['Reps'].median(), inplace=True)` -/
def fillRepsCol (rows : List Record) : List Record :=
  rows.map (fillR (medianOpt (rows.filterMap (·.reps))))

/- graph.py line 16: `df['Sets'].fillna(df['Sets'].median(), inplace=True)` -/
def fillSetsCol (rows : List Record) : List Record :=
  rows.map (fillS (medianOpt (rows.filterMap (·.sets))))

/- The three imputations, in source order (lines 14-16). -/
def imputeAll (rows : List Record) : List Record :=
  fillSetsCol (fillRepsCol (fillWeightCol rows))

/- Helper for `drop_duplicates()`: walk the rows keeping the first occurrence
   of each value, `seen` holding the values already emitted. -/
def dedupFirstAux {α : Type} [DecidableEq α] (seen : List α) : List α → List α
  | [] => []
  | r :: rs =>
    if r ∈ seen then dedupFirstAux seen rs
    else r :: dedupFirstAux (r :: seen) rs

/- `drop_duplicates()`: keep the first occurrence of each row value
   (pandas' default `keep='first'`; NaN cells compare equal for this purpose,
   as they do for `Option.none`). -/
def dedupFirst {α : Type} [DecidableEq α] (l : List α) : List α :=
  dedupFirstAux [] l

/- graph.py line 25: `df.sort_values(by='Date', inplace=True)`.  The sort is
   modelled with an insertion sort; note that pandas' default sort kind is
   quicksort, whose behaviour on rows with equal dates is not specified, so
   only permutation- and sortedness-facts of this model are used. -/
def sortByDate (rows : List Record) : List Record :=
  List.insertionSort (fun a b => a.date ≤ b.date) rows

/- The row pipeline of `read_data` (lines 13-27): impute, deduplicate, sort. -/
def read_data_rows (rows : List Record) : List Record :=
  sortByDate (dedupFirst (imputeAll rows))

/- The raw CSV: a header line plus the rows.  Cells are addressed by the
   seven projected fields; the header records which columns the file has. -/
structure RawTable where
  header : List String
  rows : List Record

def requiredColumns : List String :=
  ["Date", "Workout Name", "Exercise Name", "Weight", "Reps", "Sets", "Notes"]

inductive LoadError where
  | schemaError
deriving DecidableEq, Repr

/- graph.py line 11: `pd.read_csv(file_path, usecols=[...])` raises when any
   of the requested columns is absent from the file's header; that failure is
   the spec's `SchemaError`.  Otherwise the cleaning pipeline runs. -/
def read_data (t : RawTable) : Except LoadError (List Record) :=
  if requiredColumns.all (fun c => t.header.contains c) then
    Except.ok (read_data_rows t.rows)
  else
    Except.error LoadError.schemaError

/- Metric functions (graph.py lines 108-121).  The aggregator only applies
   them to rows whose Weight and Reps survived the dropna step, so present
   cells are unwrapped with a default that is never reached on such rows. -/

def calc_best_set (r : Record) : ℚ :=
  r.weight.getD 0 * r.reps.getD 0

def calc_total_volume (r : Record) : ℚ :=
  r.weight.getD 0 * r.reps.getD 0 * r.sets.getD 0

/- graph.py line 121: `group['Weight'] * (1 + 0.0333 * group['Reps'])`. -/
def calc_one_rep_max (r : Record) : ℚ :=
  r.weight.getD 0 * (1 + 333 / 10000 * r.reps.getD 0)

/- `Series.diff()` applied to the Reps column: the first entry is NaN
   (`none`), thereafter consecutive differences. -/
def diffAux (p : ℚ) : List ℚ → List (Option ℚ)
  | [] => []
  | x :: xs => some (x - p) :: diffAux x xs

def seriesDiff : List ℚ → List (Option ℚ)
  | [] => []
  | x :: xs => none :: diffAux x xs

/- The `!= 1` comparison of line 117; NaN compares unequal to 1, so the first
   position always reads `true`. -/
def diffNeOne (d : Option ℚ) : Bool :=
  match d with
  | none => true
  | some q => decide (q ≠ 1)

/- `.cumsum()` over a boolean series, starting from `acc`. -/
def cumsumBool (acc : ℕ) : List Bool → List ℕ
  | [] => []
  | b :: bs =>
    let acc2 := if b then acc + 1 else acc
    acc2 :: cumsumBool acc2 bs

/- graph.py line 117:
   `(group['Reps'].diff() != 1).cumsum() * (group['Reps'] == 1)`. -/
def calc_max_consecutive_reps (reps : List ℚ) : List ℕ :=
  List.zipWith (fun c r => if r = 1 then c else 0)
    (cumsumBool 0 ((seriesDiff reps).map diffNeOne)) reps

/- Exercise Aggregator: the grouping/filtering logic of
   `plot_metric_over_time` (graph.py lines 47-68), with the chart calls
   stripped.  The series map it returns is the spec's `compute_series`. -/

/- The group keys of `df.groupby('Exercise Name')`. -/
def exerciseNames (records : List Record) : List String :=
  (records.map (·.exercise_name)).dedup

/- `groups.size()` for one key: the exercise's total row count. -/
def exerciseCount (records : List Record) (e : String) : ℕ :=
  (records.filter (fun r => decide (r.exercise_name = e))).length

/- Lines 49-51: keys whose count reaches the threshold. -/
def popularExercises (records : List Record) (minOcc : ℕ) : List String :=
  (exerciseNames records).filter (fun e => decide (minOcc ≤ exerciseCount records e))

/- Line 55: `group.dropna(subset=['Weight', 'Reps'])`. -/
def dropMissingWR (group : List Record) : List Record :=
  group.filter (fun r => r.weight.isSome && r.reps.isSome)

/- `Series.max()` over the dates of a group; `none` on an empty group
   (pandas' NaN). -/
def listMaxInt (l : List ℤ) : Option ℤ :=
  match l with
  | [] => none
  | x :: xs => some (xs.foldl max x)

/- Lines 58-61.  Python's `if last_x_days:` is truthiness: both `None` and
   `0` skip the filter.  On a non-zero window the rows from the last
   `last_x_days` days (inclusive bound `max_date - last_x_days`) are kept; on
   an empty group the NaN max makes every comparison false, and the group is
   empty either way. -/
def applyWindow (lastXDays : Option ℕ) (group : List Record) : List Record :=
  match lastXDays with
  | none => group
  | some d =>
    if d = 0 then group
    else
      match listMaxInt (group.map (·.date)) with
      | none => group
      | some maxDate => group.filter (fun r => decide (maxDate - (d : ℤ) ≤ r.date))

/- The rows of exercise `e` that survive the dropna and window filters. -/
def retainedGroup (records : List Record) (e : String) (lastXDays : Option ℕ) :
    List Record :=
  applyWindow lastXDays (dropMissingWR (records.filter (fun r => decide (r.exercise_name = e))))

/- `Series.max()` over metric values; `none` on an empty series. -/
def listMaxQ (l : List ℚ) : Option ℚ :=
  match l with
  | [] => none
  | x :: xs => some (xs.foldl max x)

/- The keys of `group.groupby('Date')`: the distinct dates, which pandas
   returns sorted ascending. -/
def seriesDates (group : List Record) : List ℤ :=
  List.insertionSort (fun a b => a ≤ b) ((group.map (·.date)).dedup)

/- Lines 64-68: compute the metric per row, group by date, take the per-date
   maximum. -/
def seriesFor (group : List Record) (metricFn : Record → ℚ) : List (ℤ × ℚ) :=
  (seriesDates group).filterMap (fun d =>
    match listMaxQ ((group.filter (fun r => decide (r.date = d))).map metricFn) with
    | none => none
    | some v => some (d, v))

/- The aggregator: one (exercise, MetricSeries) pair per retained key. -/
def compute_series (records : List Record) (metricFn : Record → ℚ)
    (minOcc : ℕ) (lastXDays : Option ℕ) : List (String × List (ℤ × ℚ)) :=
  (popularExercises records minOcc).map
    (fun e => (e, seriesFor (retainedGroup records e lastXDays) metricFn))

/- Trend Renderer control flow (graph.py lines 74-76): the line of best fit
   is computed by `np.polyfit(x, y, 1)` and plotted unconditionally; the
   source has no guard on the number of points of the series. -/
def trendFitAttempted (_series : List (ℤ × ℚ)) : Bool :=
  true

/- Frequency Reporter (graph.py lines 84-96). -/

/- The label `pd.Grouper(freq='W')` gives a date: the end of its week, weeks
   ending on Sunday.  With day 0 a Thursday, Sundays are the days `≡ 3 mod 7`,
   so the label of `d` is the first Sunday on or after `d`. -/
def weekEnd (d : ℤ) : ℤ :=
  d + (3 - d) % 7

/- `nunique` over the workout names of one weekly bucket. -/
def bucketCount (window : List Record) (b : ℤ) : ℕ :=
  ((window.filter (fun r => decide (weekEnd r.date = b))).map (·.workout_name)).dedup.length

/- Line 90: the rows inside the inclusive trailing window. -/
def windowRows (records : List Record) (startDate endDate : ℤ) : List Record :=
  records.filter (fun r => decide (startDate ≤ r.date ∧ r.date ≤ endDate))

/- The distinct weekly bucket labels of the windowed rows, sorted ascending
   (lines 92 and 96). -/
def weekBuckets (window : List Record) : List ℤ :=
  List.insertionSort (fun a b => a ≤ b) ((window.map (fun r => weekEnd r.date)).dedup)

/- Lines 88-96: window the rows to the trailing `lastXWeeks` weeks
   (`pd.DateOffset(weeks=w)` is exactly `7*w` days, both bounds inclusive),
   bucket by week, count distinct workout names per bucket, sort the buckets.
   On an empty input the NaN `max()` empties the window and nothing is
   plotted. -/
def plot_workouts_per_week (records : List Record) (lastXWeeks : ℕ) :
    List (ℤ × ℕ) :=
  match listMaxInt (records.map (·.date)) with
  | none => []
  | some endDate =>
    (weekBuckets (windowRows records (endDate - 7 * (lastXWeeks : ℤ)) endDate)).map
      (fun b => (b, bucketCount (windowRows records (endDate - 7 * (lastXWeeks : ℤ)) endDate) b))

/- Concrete inputs used by the scenario parts of the claims. -/

/- A fully-present row. -/
def mkRow (d : ℤ) (w e : String) (wt rp st : ℚ) : Record :=
  ⟨d, w, e, some wt, some rp, some st, none⟩

/- Twelve "Squat" rows and two "Curl" rows (claim C1's scenario). -/
def squatCurlRecords : List Record :=
  (List.range 12).map (fun i => mkRow i "W" "Squat" 100 5 3) ++
  [mkRow 20 "W" "Curl" 10 10 3, mkRow 21 "W" "Curl" 10 10 3]

/- Two "Bench" rows on the same date whose one-rep-max values are 120 and
   135 (claim C2's scenario). -/
def benchRecords : List Record :=
  [mkRow 0 "W" "Bench" 120 0 3, mkRow 0 "W" "Bench" 135 0 3]

/- Facts about the fold computing a pandas `Series.max()`. -/

theorem le_foldl_max (xs : List ℚ) (x : ℚ) : x ≤ xs.foldl max x := by
  induction xs generalizing x with
  | nil => exact le_refl x
  | cons a as ih => exact le_trans (le_max_left x a) (ih (max x a))

theorem mem_le_foldl_max (xs : List ℚ) (x y : ℚ) (hy : y ∈ xs) :
    y ≤ xs.foldl max x := by
  induction xs generalizing x with
  | nil => cases hy
  | cons a as ih =>
    rcases List.mem_cons.1 hy with h | h
    · subst h
      exact le_trans (le_max_right x y) (le_foldl_max as (max x y))
    · exact ih (max x a) h

theorem foldl_max_mem (xs : List ℚ) (x : ℚ) : xs.foldl max x ∈ x :: xs := by
  induction xs generalizing x with
  | nil => exact List.mem_singleton.2 rfl
  | cons a as ih =>
    rcases List.mem_cons.1 (ih (max x a)) with h | h
    · rw [List.foldl_cons, h]
      rcases max_choice x a with hm | hm <;> rw [hm]
      · exact List.mem_cons_self _ _
      · exact List.mem_cons_of_mem _ (List.mem_cons_self _ _)
    · exact List.mem_cons_of_mem _ (List.mem_cons_of_mem _ h)

theorem listMaxQ_mem {l : List ℚ} {v : ℚ} (h : listMaxQ l = some v) : v ∈ l := by
  cases l with
  | nil => simp [listMaxQ] at h
  | cons x xs =>
    simp only [listMaxQ, Option.some.injEq] at h
    rw [← h]
    exact foldl_max_mem xs x

theorem listMaxQ_ge {l : List ℚ} {v : ℚ} (h : listMaxQ l = some v) :
    ∀ x ∈ l, x ≤ v := by
  cases l with
  | nil => simp [listMaxQ] at h
  | cons x xs =>
    simp only [listMaxQ, Option.some.injEq] at h
    intro y hy
    rw [← h]
    rcases List.mem_cons.1 hy with h1 | h1
    · subst h1; exact le_foldl_max xs y
    · exact mem_le_foldl_max xs x y h1

unseal Rat.mul Rat.add Rat.sub Rat.inv in
/-- C1: the aggregator's output series map has exactly the exercises of the
input whose total row count (taken before the missing-data filter) reaches
`min_occurrences`; on the Squat-12 / Curl-2 input with threshold 10 only
"Squat" remains. -/
theorem c1_popular_exercises :
    (∀ (records : List Record) (metricFn : Record → ℚ) (minOcc : ℕ)
       (lastXDays : Option ℕ) (e : String),
       e ∈ (compute_series records metricFn minOcc lastXDays).map Prod.fst ↔
         e ∈ exerciseNames records ∧ minOcc ≤ exerciseCount records e) ∧
    (compute_series squatCurlRecords calc_one_rep_max 10 none).map Prod.fst
      = ["Squat"] := by
  constructor
  · intro records metricFn minOcc lastXDays e
    simp [compute_series, popularExercises, List.mem_filter, List.mem_map]
  · decide

/-- C2: any value of a series produced by the aggregator is the maximum of
the metric over the retained rows of that exercise on that date. -/
theorem c2_series_value_is_max (records : List Record) (metricFn : Record → ℚ)
    (minOcc : ℕ) (lastXDays : Option ℕ) (e : String) (s : List (ℤ × ℚ))
    (d : ℤ) (v : ℚ)
    (hs : (e, s) ∈ compute_series records metricFn minOcc lastXDays)
    (hv : (d, v) ∈ s) :
    v ∈ ((retainedGroup records e lastXDays).filter
          (fun r => decide (r.date = d))).map metricFn ∧
    ∀ x ∈ ((retainedGroup records e lastXDays).filter
          (fun r => decide (r.date = d))).map metricFn, x ≤ v := by
  rcases List.mem_map.1 hs with ⟨a, ha, heq⟩
  have he : a = e := congrArg Prod.fst heq
  subst he
  have hser : s = seriesFor (retainedGroup records a lastXDays) metricFn :=
    (congrArg Prod.snd heq).symm
  subst hser
  rcases List.mem_filterMap.1 hv with ⟨d0, hd0, hmatch⟩
  cases hq : listMaxQ (((retainedGroup records a lastXDays).filter
      (fun r => decide (r.date = d0))).map metricFn) with
  | none => rw [hq] at hmatch; cases hmatch
  | some v0 =>
    rw [hq] at hmatch
    have hd : d0 = d := congrArg Prod.fst (Option.some.inj hmatch)
    have hvv : v0 = v := congrArg Prod.snd (Option.some.inj hmatch)
    subst hd; subst hvv
    exact ⟨listMaxQ_mem hq, listMaxQ_ge hq⟩

unseal Rat.mul Rat.add Rat.sub Rat.inv in
/-- Witness for C2 at the Bench scenario: two same-date rows with one-rep-max
values 120 and 135 give the series value 135, which is the per-date maximum. -/
theorem c2_witness :
    (135 : ℚ) ∈ ((retainedGroup benchRecords "Bench" none).filter
      (fun r => decide (r.date = 0))).map calc_one_rep_max :=
  (c2_series_value_is_max benchRecords calc_one_rep_max 0 none "Bench"
    [((0 : ℤ), (135 : ℚ))] 0 135 (by decide) (by decide)).1

/-- C8: the Trend Renderer's control flow has no skip for degenerate series;
the fit line is attempted even for a series with a single date point
(contradicting the claimed skip-on-fewer-than-2-points behaviour). -/
theorem c8_fit_attempted_on_single_point :
    trendFitAttempted [((0 : ℤ), (100 : ℚ))] = true ∧
    ([((0 : ℤ), (100 : ℚ))] : List (ℤ × ℚ)).length < 2 := by
  exact ⟨rfl, by decide⟩

/-- C9: loading fails with the schema error exactly when one of the seven
required columns is absent from the header, and succeeds (running the
cleaning pipeline) when all seven are present. -/
theorem c9_schema_error (t : RawTable) :
    (read_data t = Except.error LoadError.schemaError ↔
      ∃ c ∈ requiredColumns, c ∉ t.header) ∧
    ((∀ c ∈ requiredColumns, c ∈ t.header) →
      read_data t = Except.ok (read_data_rows t.rows)) := by
  by_cases h : requiredColumns.all (fun c => t.header.contains c) = true
  · have hall : ∀ c ∈ requiredColumns, c ∈ t.header := by
      intro c hc
      have := (List.all_eq_true.1 h) c hc
      exact List.mem_of_elem_eq_true this
    constructor
    · rw [read_data, if_pos h]
      constructor
      · intro hfalse; cases hfalse
      · rintro ⟨c, hc, hnot⟩; exact absurd (hall c hc) hnot
    · intro _; rw [read_data, if_pos h]
  · have : ∃ c ∈ requiredColumns, c ∉ t.header := by
      by_contra hno
      push_neg at hno
      exact h (List.all_eq_true.2 (fun c hc => List.elem_eq_true_of_mem (hno c hc)))
    constructor
    · rw [read_data, if_neg h]
      exact ⟨fun _ => this, fun _ => rfl⟩
    · intro hall
      exact absurd (List.all_eq_true.2
        (fun c hc => List.elem_eq_true_of_mem (hall c hc))) h

/-- Witness for C9: a header missing "Workout Name" is rejected with the
schema error. -/
theorem c9_witness :
    read_data ⟨["Date"], []⟩ = Except.error LoadError.schemaError :=
  (c9_schema_error ⟨["Date"], []⟩).1.mpr ⟨"Workout Name", by decide, by decide⟩

/-- C10: a trailing window of 0 days behaves exactly like no window, because
the source tests the parameter by Python truthiness (`if last_x_days:`). -/
theorem c10_zero_window_is_no_window (records : List Record)
    (metricFn : Record → ℚ) (minOcc : ℕ) :
    compute_series records metricFn minOcc (some 0) =
      compute_series records metricFn minOcc none := rfl

/- The simultaneous form of the three per-column imputations. -/
def fillRecord (mW mR mS : Option ℚ) (r : Record) : Record :=
  { r with weight := fillOpt r.weight mW, reps := fillOpt r.reps mR,
           sets := fillOpt r.sets mS }

theorem filterMap_reps_map_fillW (m : Option ℚ) (rows : List Record) :
    (rows.map (fillW m)).filterMap (·.reps) = rows.filterMap (·.reps) := by
  rw [List.filterMap_map]
  rfl

theorem filterMap_sets_map_fillW (m : Option ℚ) (rows : List Record) :
    (rows.map (fillW m)).filterMap (·.sets) = rows.filterMap (·.sets) := by
  rw [List.filterMap_map]
  rfl

theorem filterMap_sets_map_fillR (m : Option ℚ) (rows : List Record) :
    (rows.map (fillR m)).filterMap (·.sets) = rows.filterMap (·.sets) := by
  rw [List.filterMap_map]
  rfl

/- The three sequential column fills of lines 14-16 amount to one map with
   the three input-column medians: the columns are independent. -/
theorem imputeAll_eq_map (rows : List Record) :
    imputeAll rows = rows.map
      (fillRecord (medianOpt (rows.filterMap (·.weight)))
        (medianOpt (rows.filterMap (·.reps)))
        (medianOpt (rows.filterMap (·.sets)))) := by
  unfold imputeAll fillSetsCol fillRepsCol fillWeightCol
  rw [filterMap_reps_map_fillW, filterMap_sets_map_fillR, filterMap_sets_map_fillW,
    List.map_map, List.map_map]
  rfl

/- The median only depends on the multiset of present values. -/
theorem medianOpt_perm {l l2 : List ℚ} (h : l.Perm l2) :
    medianOpt l = medianOpt l2 := by
  by_cases hl : l = []
  · subst hl
    rw [h.nil_eq]
  · have hl2 : l2 ≠ [] := by
      intro hnil
      subst hnil
      exact hl h.eq_nil
    unfold medianOpt
    rw [if_neg hl, if_neg hl2]
    have hs : List.insertionSort (fun a b => a ≤ b) l
        = List.insertionSort (fun a b => a ≤ b) l2 :=
      List.eq_of_perm_of_sorted
        (((List.perm_insertionSort _ l).trans h).trans
          (List.perm_insertionSort _ l2).symm)
        (List.sorted_insertionSort _ l) (List.sorted_insertionSort _ l2)
    rw [hs]

/-- C4: the loader imputes each of the Weight, Reps and Sets columns
independently with that column's median over the whole input, before
deduplication and sorting, and the imputed medians are invariant under any
permutation of the input rows. -/
theorem c4_median_imputation (rows rows2 : List Record) (h : rows.Perm rows2) :
    imputeAll rows = rows.map
      (fillRecord (medianOpt (rows.filterMap (·.weight)))
        (medianOpt (rows.filterMap (·.reps)))
        (medianOpt (rows.filterMap (·.sets)))) ∧
    read_data_rows rows = sortByDate (dedupFirst (imputeAll rows)) ∧
    medianOpt (rows.filterMap (·.weight)) = medianOpt (rows2.filterMap (·.weight)) ∧
    medianOpt (rows.filterMap (·.reps)) = medianOpt (rows2.filterMap (·.reps)) ∧
    medianOpt (rows.filterMap (·.sets)) = medianOpt (rows2.filterMap (·.sets)) :=
  ⟨imputeAll_eq_map rows, rfl,
   medianOpt_perm (h.filterMap _), medianOpt_perm (h.filterMap _),
   medianOpt_perm (h.filterMap _)⟩

/- Input for the C4 witness: a missing weight and a missing reps cell. -/
def c4Rows : List Record :=
  [⟨0, "A", "Squat", none, some 5, some 3, none⟩,
   ⟨1, "A", "Squat", some 100, some 5, some 3, none⟩,
   ⟨2, "A", "Squat", some 90, none, some 3, none⟩]

def c4RowsPerm : List Record :=
  [⟨2, "A", "Squat", some 90, none, some 3, none⟩,
   ⟨0, "A", "Squat", none, some 5, some 3, none⟩,
   ⟨1, "A", "Squat", some 100, some 5, some 3, none⟩]

unseal Rat.mul Rat.add Rat.sub Rat.inv in
/-- Witness for C4 at a concrete input and a rotation of it. -/
theorem c4_witness :
    imputeAll c4Rows = c4Rows.map
      (fillRecord (medianOpt (c4Rows.filterMap (·.weight)))
        (medianOpt (c4Rows.filterMap (·.reps)))
        (medianOpt (c4Rows.filterMap (·.sets)))) ∧
    medianOpt (c4Rows.filterMap (·.weight))
      = medianOpt (c4RowsPerm.filterMap (·.weight)) :=
  ⟨(c4_median_imputation c4Rows c4RowsPerm (by decide)).1,
   (c4_median_imputation c4Rows c4RowsPerm (by decide)).2.2.1⟩

/- Membership and freshness facts about the first-occurrence deduplication. -/

theorem mem_of_mem_dedupFirstAux {α : Type} [DecidableEq α] :
    ∀ (l seen : List α) (x : α), x ∈ dedupFirstAux seen l → x ∈ l := by
  intro l
  induction l with
  | nil => intro seen x hx; cases hx
  | cons r rs ih =>
    intro seen x hx
    unfold dedupFirstAux at hx
    by_cases hr : r ∈ seen
    · rw [if_pos hr] at hx
      exact List.mem_cons_of_mem _ (ih seen x hx)
    · rw [if_neg hr] at hx
      rcases List.mem_cons.1 hx with h1 | h1
      · subst h1; exact List.mem_cons_self _ _
      · exact List.mem_cons_of_mem _ (ih (r :: seen) x h1)

theorem dedupFirstAux_not_mem_seen {α : Type} [DecidableEq α] :
    ∀ (l seen : List α) (x : α), x ∈ dedupFirstAux seen l → x ∉ seen := by
  intro l
  induction l with
  | nil => intro seen x hx; cases hx
  | cons r rs ih =>
    intro seen x hx
    unfold dedupFirstAux at hx
    by_cases hr : r ∈ seen
    · rw [if_pos hr] at hx
      exact ih seen x hx
    · rw [if_neg hr] at hx
      rcases List.mem_cons.1 hx with h1 | h1
      · subst h1; exact hr
      · intro hseen
        exact ih (r :: seen) x h1 (List.mem_cons_of_mem _ hseen)

theorem dedupFirstAux_nodup {α : Type} [DecidableEq α] :
    ∀ (l seen : List α), (dedupFirstAux seen l).Nodup := by
  intro l
  induction l with
  | nil => intro seen; exact List.nodup_nil
  | cons r rs ih =>
    intro seen
    unfold dedupFirstAux
    by_cases hr : r ∈ seen
    · rw [if_pos hr]; exact ih seen
    · rw [if_neg hr]
      refine List.nodup_cons.2 ⟨?_, ih (r :: seen)⟩
      intro hmem
      exact dedupFirstAux_not_mem_seen rs (r :: seen) r hmem (List.mem_cons_self _ _)

theorem dedupFirst_nodup {α : Type} [DecidableEq α] (l : List α) :
    (dedupFirst l).Nodup :=
  dedupFirstAux_nodup l []

theorem mem_of_mem_dedupFirst {α : Type} [DecidableEq α] {l : List α} {x : α}
    (h : x ∈ dedupFirst l) : x ∈ l :=
  mem_of_mem_dedupFirstAux l [] x h

/- Input refuting C5 as stated: its Weight column is entirely missing, so the
   median is NaN and `fillna` leaves the hole in place. -/
def c5Rows : List Record :=
  [⟨0, "A", "Squat", none, some 5, some 3, none⟩]

/-- Counterexample to C5 as stated: on an input whose Weight column has no
present value at all, a missing Weight survives the loader. -/
theorem c5_counterexample :
    ((read_data_rows c5Rows).any (fun r => r.weight.isNone)) = true := by
  decide

/-- C5 amended: the loader output never contains two rows with all seven
fields equal; and each of the Weight, Reps, Sets columns is hole-free in the
output provided that column had at least one present value in the input. -/
theorem c5_amended (rows : List Record) :
    (read_data_rows rows).Nodup ∧
    (rows.filterMap (·.weight) ≠ [] →
      ∀ r ∈ read_data_rows rows, r.weight.isSome = true) ∧
    (rows.filterMap (·.reps) ≠ [] →
      ∀ r ∈ read_data_rows rows, r.reps.isSome = true) ∧
    (rows.filterMap (·.sets) ≠ [] →
      ∀ r ∈ read_data_rows rows, r.sets.isSome = true) := by
  have hperm : List.Perm (read_data_rows rows) (dedupFirst (imputeAll rows)) :=
    List.perm_insertionSort _ _
  have hmem : ∀ r ∈ read_data_rows rows, r ∈ imputeAll rows := by
    intro r hr
    exact mem_of_mem_dedupFirst (hperm.mem_iff.1 hr)
  refine ⟨hperm.nodup_iff.2 (dedupFirst_nodup _), ?_, ?_, ?_⟩
  · intro hne r hr
    rcases List.mem_map.1 (by rw [imputeAll_eq_map] at hmem; exact hmem r hr) with
      ⟨r0, _, hfill⟩
    rw [← hfill]
    show (fillOpt r0.weight (medianOpt (rows.filterMap (·.weight)))).isSome = true
    rw [medianOpt, if_neg hne]
    cases r0.weight <;> rfl
  · intro hne r hr
    rcases List.mem_map.1 (by rw [imputeAll_eq_map] at hmem; exact hmem r hr) with
      ⟨r0, _, hfill⟩
    rw [← hfill]
    show (fillOpt r0.reps (medianOpt (rows.filterMap (·.reps)))).isSome = true
    rw [medianOpt, if_neg hne]
    cases r0.reps <;> rfl
  · intro hne r hr
    rcases List.mem_map.1 (by rw [imputeAll_eq_map] at hmem; exact hmem r hr) with
      ⟨r0, _, hfill⟩
    rw [← hfill]
    show (fillOpt r0.sets (medianOpt (rows.filterMap (·.sets)))).isSome = true
    rw [medianOpt, if_neg hne]
    cases r0.sets <;> rfl

unseal Rat.mul Rat.add Rat.sub Rat.inv in
/-- Witness for the amended C5 at a concrete input with one present value per
numeric column. -/
theorem c5_amended_witness :
    (read_data_rows c4Rows).Nodup ∧
    ∀ r ∈ read_data_rows c4Rows, r.weight.isSome = true :=
  ⟨(c5_amended c4Rows).1,
   fun r hr => (c5_amended c4Rows).2.1 (by decide) r hr⟩

/- Spec-side formulation of the consecutive-reps metric, following the
   spec's words: `streak_id[i]` is the cumulative count of positions
   `j ≤ i` at which `reps[j] != reps[j-1] + 1` (the first position always
   counts), and the value at `i` is `streak_id[i]` when `reps[i] == 1`,
   else 0. -/

def specStreakBreak (reps : List ℚ) (j : ℕ) : Bool :=
  decide (j = 0) || decide (reps.getD j 0 ≠ reps.getD (j - 1) 0 + 1)

def specStreakId (reps : List ℚ) (i : ℕ) : ℕ :=
  ((List.range (i + 1)).filter (specStreakBreak reps)).length

def specStreakValue (reps : List ℚ) (i : ℕ) : ℕ :=
  if reps.getD i 0 = 1 then specStreakId reps i else 0

/- Tail view of the source computation: the cumulative sum continued from
   `acc` with the previous reps value `prev` in hand. -/
def mcrTail (prev : ℚ) (acc : ℕ) (xs : List ℚ) : List ℕ :=
  List.zipWith (fun c r => if r = 1 then c else 0)
    (cumsumBool acc ((diffAux prev xs).map diffNeOne)) xs

/- Tail view of the spec count: breaks of `xs` relative to previous value
   `prev` at local position `j`. -/
def tailBreak (prev : ℚ) (xs : List ℚ) (j : ℕ) : Bool :=
  decide (xs.getD j 0 ≠ (if j = 0 then prev else xs.getD (j - 1) 0) + 1)

def tailBreaks (prev : ℚ) (xs : List ℚ) (i : ℕ) : ℕ :=
  ((List.range (i + 1)).filter (tailBreak prev xs)).length

theorem range_filter_succ_shift (p : ℕ → Bool) (n : ℕ) :
    ((List.range (n + 1)).filter p).length
      = (if p 0 then 1 else 0)
        + ((List.range n).filter (fun k => p (k + 1))).length := by
  rw [List.range_succ_eq_map, List.filter_cons]
  have hmap : (List.map Nat.succ (List.range n)).filter p
      = ((List.range n).filter (fun k => p (k + 1))).map Nat.succ := by
    rw [List.filter_map]
    rfl
  by_cases h0 : p 0
  · rw [if_pos h0, List.length_cons, hmap, List.length_map]
    simp only [h0, if_true]
    omega
  · rw [if_neg h0, hmap, List.length_map]
    simp [h0]

theorem tailBreak_cons_succ (prev x : ℚ) (ys : List ℚ) (k : ℕ) :
    tailBreak prev (x :: ys) (k + 1) = tailBreak x ys k := by
  cases k with
  | zero => simp [tailBreak]
  | succ m => simp [tailBreak]

theorem tailBreaks_succ (prev x : ℚ) (ys : List ℚ) (j : ℕ) :
    tailBreaks prev (x :: ys) (j + 1)
      = (if x = prev + 1 then 0 else 1) + tailBreaks x ys j := by
  unfold tailBreaks
  rw [range_filter_succ_shift]
  have h1 : (fun k => tailBreak prev (x :: ys) (k + 1)) = tailBreak x ys := by
    funext k
    exact tailBreak_cons_succ prev x ys k
  rw [h1]
  have h2 : tailBreak prev (x :: ys) 0 = decide (x ≠ prev + 1) := by
    simp [tailBreak]
  rw [h2]
  by_cases hx : x = prev + 1
  · simp [hx]
  · simp [hx]

theorem sub_one_iff_succ (x prev : ℚ) : x - prev = 1 ↔ x = prev + 1 := by
  constructor
  · intro h; linarith
  · intro h; rw [h]; ring

theorem mcrTail_cons (prev x : ℚ) (acc : ℕ) (ys : List ℚ) :
    mcrTail prev acc (x :: ys)
      = (if x = 1 then (if x = prev + 1 then acc else acc + 1) else 0)
        :: mcrTail x (if x = prev + 1 then acc else acc + 1) ys := by
  unfold mcrTail
  simp only [diffAux, List.map_cons, cumsumBool, diffNeOne, List.zipWith_cons_cons]
  have hb : (if decide (x - prev ≠ 1) = true then acc + 1 else acc)
      = (if x = prev + 1 then acc else acc + 1) := by
    by_cases hx : x = prev + 1
    · have : x - prev = 1 := (sub_one_iff_succ x prev).2 hx
      simp [this, hx]
    · have : x - prev ≠ 1 := fun hc => hx ((sub_one_iff_succ x prev).1 hc)
      simp [this, hx]
  rw [hb]

theorem mcrTail_getD (xs : List ℚ) :
    ∀ (prev : ℚ) (acc i : ℕ), i < xs.length →
    (mcrTail prev acc xs).getD i 0
      = if xs.getD i 0 = 1 then acc + tailBreaks prev xs i else 0 := by
  induction xs with
  | nil => intro prev acc i h; cases h
  | cons x ys ih =>
    intro prev acc i h
    rw [mcrTail_cons]
    cases i with
    | zero =>
      simp only [List.getD_cons_zero]
      have h0 : tailBreaks prev (x :: ys) 0 = if x = prev + 1 then 0 else 1 := by
        unfold tailBreaks
        rw [show List.range 1 = [0] from rfl]
        have ht : tailBreak prev (x :: ys) 0 = decide (x ≠ prev + 1) := by
          simp [tailBreak]
        simp only [List.filter_cons, List.filter_nil]
        rw [ht]
        by_cases hx : x = prev + 1 <;> simp [hx]
      rw [h0]
      by_cases h1 : x = 1
      · rw [if_pos h1, if_pos h1]
        by_cases hx : x = prev + 1
        · rw [if_pos hx, if_pos hx, Nat.add_zero]
        · rw [if_neg hx, if_neg hx]
      · rw [if_neg h1, if_neg h1]
    | succ j =>
      simp only [List.getD_cons_succ]
      rw [ih x (if x = prev + 1 then acc else acc + 1) j
        (Nat.lt_of_succ_lt_succ h)]
      rw [tailBreaks_succ]
      split_ifs <;> omega

theorem specStreakBreak_cons_succ (x : ℚ) (ys : List ℚ) (k : ℕ) :
    specStreakBreak (x :: ys) (k + 1) = tailBreak x ys k := by
  cases k with
  | zero => simp [specStreakBreak, tailBreak]
  | succ m => simp [specStreakBreak, tailBreak]

theorem specStreakId_cons_succ (x : ℚ) (ys : List ℚ) (j : ℕ) :
    specStreakId (x :: ys) (j + 1) = 1 + tailBreaks x ys j := by
  unfold specStreakId tailBreaks
  rw [range_filter_succ_shift]
  have h1 : (fun k => specStreakBreak (x :: ys) (k + 1)) = tailBreak x ys := by
    funext k
    exact specStreakBreak_cons_succ x ys k
  rw [h1]
  simp [specStreakBreak]

theorem calc_mcr_cons (x : ℚ) (ys : List ℚ) :
    calc_max_consecutive_reps (x :: ys)
      = (if x = 1 then 1 else 0) :: mcrTail x 1 ys := by
  unfold calc_max_consecutive_reps mcrTail seriesDiff
  simp only [List.map_cons, cumsumBool, diffNeOne, List.zipWith_cons_cons]
  rfl

/-- C3: position by position, the source's diff/cumsum/mask computation
agrees with the spec's streak rule: the value at `i` is `streak_id[i]` when
`reps[i] = 1` and 0 otherwise, `streak_id` counting the positions `j ≤ i`
with `reps[j] ≠ reps[j-1] + 1` (the first position always counting). -/
theorem c3_max_consecutive_reps (reps : List ℚ) (i : ℕ) (h : i < reps.length) :
    (calc_max_consecutive_reps reps).getD i 0 = specStreakValue reps i := by
  cases reps with
  | nil => cases h
  | cons x ys =>
    rw [calc_mcr_cons]
    cases i with
    | zero =>
      simp only [List.getD_cons_zero]
      have h0 : specStreakId (x :: ys) 0 = 1 := by
        unfold specStreakId
        rw [show List.range 1 = [0] from rfl]
        simp [List.filter_cons, specStreakBreak]
      unfold specStreakValue
      rw [h0]
      simp only [List.getD_cons_zero]
    | succ j =>
      simp only [List.getD_cons_succ]
      rw [mcrTail_getD ys x 1 j (Nat.lt_of_succ_lt_succ h)]
      unfold specStreakValue
      rw [specStreakId_cons_succ]
      simp only [List.getD_cons_succ]

unseal Rat.add Rat.sub in
/-- Witness for C3 at `reps = [1,2,3,1,1]`, position 4: three streak breaks
have occurred (positions 0, 3 and 4) and `reps[4] = 1`, so the value is 3. -/
theorem c3_witness :
    (calc_max_consecutive_reps [1, 2, 3, 1, 1]).getD 4 0
      = specStreakValue [1, 2, 3, 1, 1] 4 ∧
    specStreakValue [1, 2, 3, 1, 1] 4 = 3 :=
  ⟨c3_max_consecutive_reps [1, 2, 3, 1, 1] 4 (by decide), by decide⟩

/- Elementary facts about the weekly bucket label. -/

theorem weekEnd_ge (d : ℤ) : d ≤ weekEnd d := by
  unfold weekEnd
  omega

theorem weekEnd_le (d : ℤ) : weekEnd d ≤ d + 6 := by
  unfold weekEnd
  omega

theorem weekEnd_mod (d : ℤ) : weekEnd d % 7 = 3 := by
  unfold weekEnd
  omega

theorem pwpw_eq (records : List Record) (w : ℕ) (endDate : ℤ)
    (hend : listMaxInt (records.map (·.date)) = some endDate) :
    plot_workouts_per_week records w
      = (weekBuckets (windowRows records (endDate - 7 * (w : ℤ)) endDate)).map
          (fun b =>
            (b, bucketCount (windowRows records (endDate - 7 * (w : ℤ)) endDate) b)) := by
  unfold plot_workouts_per_week
  rw [hend]

theorem mem_weekBuckets {window : List Record} {b : ℤ} :
    b ∈ weekBuckets window ↔ ∃ r ∈ window, weekEnd r.date = b := by
  unfold weekBuckets
  rw [(List.perm_insertionSort _ _).mem_iff, List.mem_dedup]
  simp [List.mem_map]

theorem weekBuckets_nodup (window : List Record) : (weekBuckets window).Nodup :=
  (List.perm_insertionSort _ _).nodup_iff.2 (List.nodup_dedup _)

theorem mem_windowRows {records : List Record} {startDate endDate : ℤ}
    {r : Record} (h : r ∈ windowRows records startDate endDate) :
    r ∈ records ∧ startDate ≤ r.date ∧ r.date ≤ endDate := by
  unfold windowRows at h
  rcases List.mem_filter.1 h with ⟨hr, hcond⟩
  exact ⟨hr, of_decide_eq_true hcond⟩

/- Any bucket of the windowed rows is a Sunday label lying between the window
   start and six days past the window end. -/
theorem weekBuckets_mem_bounds {records : List Record} {startDate endDate b : ℤ}
    (hb : b ∈ weekBuckets (windowRows records startDate endDate)) :
    b % 7 = 3 ∧ startDate ≤ b ∧ b ≤ endDate + 6 := by
  rcases mem_weekBuckets.1 hb with ⟨r, hr, hbr⟩
  rcases mem_windowRows hr with ⟨_, h1, h2⟩
  refine ⟨hbr ▸ weekEnd_mod r.date, ?_, ?_⟩
  · exact le_trans h1 (hbr ▸ weekEnd_ge r.date)
  · exact le_trans (hbr ▸ weekEnd_le r.date) (by omega)

/- A window of `7*w` days (inclusive at both ends) meets at most `w + 1`
   distinct weekly buckets. -/
theorem weekBuckets_length_le (records : List Record) (w : ℕ) (endDate : ℤ) :
    (weekBuckets (windowRows records (endDate - 7 * (w : ℤ)) endDate)).length
      ≤ w + 1 := by
  have hbnd : ∀ b ∈ weekBuckets (windowRows records (endDate - 7 * (w : ℤ)) endDate),
      b % 7 = 3 ∧ endDate - 7 * (w : ℤ) ≤ b ∧ b ≤ endDate + 6 :=
    fun b hb => weekBuckets_mem_bounds hb
  have hnodup := weekBuckets_nodup (windowRows records (endDate - 7 * (w : ℤ)) endDate)
  have hmap : ((weekBuckets (windowRows records (endDate - 7 * (w : ℤ)) endDate)).map
      (fun b => (⟨min ((b - (endDate - 7 * (w : ℤ))) / 7).toNat w, by omega⟩ : Fin (w + 1)))).Nodup := by
    refine (List.nodup_map_iff_inj_on hnodup).mpr ?_
    intro x hx y hy hf
    rcases hbnd x hx with ⟨hx3, hx1, hx2⟩
    rcases hbnd y hy with ⟨hy3, hy1, hy2⟩
    have hval := congrArg Fin.val hf
    simp only at hval
    omega
  have hcard := List.Nodup.length_le_card hmap
  simpa using hcard

/- Ten Sundays of data, seven days apart: the trailing five-week window
   [day 31, day 66] contains six Sundays, hence six weekly buckets. -/
def c7Rows : List Record :=
  (List.range 10).map (fun i => mkRow (3 + 7 * (i : ℤ)) "W" "Squat" 100 5 3)

/-- Counterexample to C7 as stated: records spanning ten weeks windowed to
the last five weeks produce six weekly buckets, not at most five. -/
theorem c7_counterexample :
    (plot_workouts_per_week c7Rows 5).length = 6 := by
  decide

/-- C7 amended: the Frequency Reporter restricts records to the inclusive
window `[end_date - 7*last_x_weeks, end_date]` and counts distinct workout
names per weekly bucket, but the window can meet `last_x_weeks + 1` weekly
buckets: the output has at most `last_x_weeks + 1` buckets, each bucket label
lying between the window start and six days past `end_date`. -/
theorem c7_amended (records : List Record) (w : ℕ) (endDate : ℤ)
    (_hw : 0 < w)
    (hend : listMaxInt (records.map (·.date)) = some endDate) :
    (plot_workouts_per_week records w).length ≤ w + 1 ∧
    ∀ p ∈ plot_workouts_per_week records w,
      endDate - 7 * (w : ℤ) ≤ p.1 ∧ p.1 ≤ endDate + 6 ∧
      p.2 = ((records.filter (fun r => decide (weekEnd r.date = p.1 ∧
          endDate - 7 * (w : ℤ) ≤ r.date ∧ r.date ≤ endDate))).map
          (·.workout_name)).dedup.length := by
  have heq := pwpw_eq records w endDate hend
  constructor
  · rw [heq, List.length_map]
    exact weekBuckets_length_le records w endDate
  · intro p hp
    rw [heq] at hp
    rcases List.mem_map.1 hp with ⟨b, hb, hpb⟩
    rcases weekBuckets_mem_bounds hb with ⟨h3, h1, h2⟩
    have hfst : p.1 = b := by rw [← hpb]
    have hsnd : p.2 = bucketCount (windowRows records (endDate - 7 * (w : ℤ)) endDate) b := by
      rw [← hpb]
    refine ⟨hfst ▸ h1, hfst ▸ h2, ?_⟩
    rw [hsnd, hfst]
    unfold bucketCount windowRows
    rw [List.filter_filter]
    have hpred : (fun (r : Record) => decide (weekEnd r.date = b) &&
        decide (endDate - 7 * (w : ℤ) ≤ r.date ∧ r.date ≤ endDate))
        = (fun (r : Record) => decide (weekEnd r.date = b ∧
            endDate - 7 * (w : ℤ) ≤ r.date ∧ r.date ≤ endDate)) := by
      funext r
      simp
    rw [hpred]

/-- Witness for the amended C7 at the ten-Sunday input: the bucket count 6 is
within the amended bound `5 + 1`. -/
theorem c7_witness :
    (plot_workouts_per_week c7Rows 5).length ≤ 5 + 1 :=
  (c7_amended c7Rows 5 66 (by decide) (by decide)).1

end WorkoutTracker
